import Mathlib

/-!
Verification of the reconciliation core of a Bitbucket Server provider.

The development shallowly embeds the Go source:
* the transport layer's response classification (`handleResponse`),
* the resource client (request building for Delete, group listing),
* the reconciliation engine (`observeRepository`, `createExternal`,
  `updateExternal`, `deleteExternal`) and its group diffing (`groupsEqual`).

External calls made through the service interface are modelled by a stub
service (`StubService`) that fixes the outcome of each remote call, and each
engine operation additionally returns the trace of remote calls it issued,
in order, so that call-sequence properties can be stated.
-/

set_option autoImplicit false

namespace BitbucketProvider

/-- Error classification of the transport layer. In Go these are sentinel
errors (`ErrNotFound`, `ErrPermission`, `ErrConflict`, `ErrResponseMalformed`)
plus generic `fmt.Errorf` values; wrapping with `%w` preserves the sentinel
classification under `errors.Is`, which this type records directly. -/
inductive BBError where
  /-- `ErrNotFound` -/
  | notFound
  /-- `ErrPermission` -/
  | permission
  /-- `ErrConflict` -/
  | conflict
  /-- `ErrResponseMalformed` -/
  | malformed
  /-- generic error for an unexpected status: carries the request URL and code -/
  | transport (url : String) (status : Nat)
  /-- a JSON decode failure that is not a syntax error -/
  | decodeFailure (msg : String)
  deriving DecidableEq, Repr

/-- `bitbucket.Repository` (the variant with a `Public` field, from the
resource client that also carries group operations). Go zero values are
`0`/`""`/`false`. -/
structure Repository where
  id : Int
  name : String
  public : Bool
  project : String
  description : String
  deriving DecidableEq, Repr

/-- `bitbucket.Repository` as declared in `internal/bitbucket/repository.go`
(no `Public` field). -/
structure RepositoryInternal where
  id : Int
  name : String
  project : String
  description : String
  deriving DecidableEq, Repr

/-- `bitbucket.Group`: a remote group grant. -/
structure Group where
  name : String
  permission : String
  deriving DecidableEq, Repr

/-- `v1alpha1.AdGroup`: a desired group grant. -/
structure AdGroup where
  name : String
  permission : String
  deriving DecidableEq, Repr

/-- `v1alpha1.RepositoryParameters`: the desired-state record. -/
structure RepositoryParameters where
  name : String
  project : String
  public : Bool
  description : String
  groups : List AdGroup
  deriving DecidableEq, Repr

/-- `managed.ExternalObservation` restricted to the two fields the engine
sets; Go's zero value for both is `false`. -/
structure ExternalObservation where
  resourceExists : Bool
  resourceUpToDate : Bool
  deriving DecidableEq, Repr

/-- The (name, permission) pair of a desired grant. -/
def AdGroup.pair (g : AdGroup) : String × String := (g.name, g.permission)

/-- The (name, permission) pair of a remote grant. -/
def Group.pair (g : Group) : String × String := (g.name, g.permission)

/-- `groupsEqual` from the reconciliation controller: a length check followed
by, for every desired grant, a linear scan of the remote grants for an entry
with the same name and the same permission. The Go inner loop with its
`found` flag and `break` is the `List.any` below; the early `return false`
of the outer loop is `List.all`. -/
def groupsEqual (crGroups : List AdGroup) (groups : List Group) : Bool :=
  if crGroups.length ≠ groups.length then
    false
  else
    crGroups.all fun crGroup =>
      groups.any fun group =>
        crGroup.name == group.name && crGroup.permission == group.permission

/-- One remote call issued through the `RepositoryService` interface,
recorded with the payload the engine sends. -/
inductive Call where
  /-- `Get(ctx, &Repository{Name, Project})` -/
  | getRepo (project name : String)
  /-- `Create(ctx, repoToCreate)` with the full body record -/
  | createRepo (r : Repository)
  /-- `Update(ctx, repoToUpdate)` with the full body record -/
  | updateRepo (r : Repository)
  /-- `Delete(ctx, &Repository{Name, Project})` -/
  | deleteRepo (project name : String)
  /-- `GetGroups(ctx, repo)` addressed by the given repo's project and name -/
  | getGroups (project name : String)
  /-- `AddGroup(ctx, repo, &group)` -/
  | addGroup (project name : String) (g : Group)
  /-- `RevokeGroup(ctx, repo, &group)` -/
  | revokeGroup (project name : String) (g : Group)
  deriving DecidableEq, Repr

/-- A stub `RepositoryService`: the outcome of every remote call the engine
can make, fixed up front. `AddGroup`/`RevokeGroup` outcomes may depend on the
grant passed; `none` means success. -/
structure StubService where
  getResult : Except BBError Repository
  createResult : Except BBError Repository
  updateResult : Except BBError Repository
  deleteResult : Option BBError
  getGroupsResult : Except BBError (List Group)
  addGroupResult : Group → Option BBError
  revokeGroupResult : Group → Option BBError

/-- `external.Observe`. Fetches the repository; a `NotFound` fetch failure is
consumed and reported as `ResourceExists: false` with a nil error; any other
fetch failure is propagated. On success the description is compared first
and, when it matches, the remote grants are fetched — the error of that
`GetGroups` call is assigned to `err` but never checked in the Go source, so
a failed fetch leaves `groups` nil (here `[]`) and the comparison proceeds.
The first component is the trace of remote calls issued. -/
def observeRepository (svc : StubService) (cr : RepositoryParameters) :
    List Call × Except BBError ExternalObservation :=
  let fetch := Call.getRepo cr.project cr.name
  match svc.getResult with
  | .error e =>
    if e = BBError.notFound then
      ([fetch], .ok ⟨false, false⟩)
    else
      ([fetch], .error e)
  | .ok repository =>
    if repository.description ≠ cr.description then
      ([fetch], .ok ⟨true, false⟩)
    else
      let gcall := Call.getGroups repository.project repository.name
      let groups := match svc.getGroupsResult with
        | .ok gs => gs
        | .error _ => []
      if ¬ groupsEqual cr.groups groups then
        ([fetch, gcall], .ok ⟨true, false⟩)
      else
        ([fetch, gcall], .ok ⟨true, true⟩)

/-- The body record `external.Create` and `external.Update` build from the
desired state: only `Name`, `Project` and `Description` are copied; `ID` and
`Public` keep their Go zero values. -/
def repoFromSpec (cr : RepositoryParameters) : Repository :=
  { id := 0, name := cr.name, public := false,
    project := cr.project, description := cr.description }

/-- The `AddGroup` loop shared by `external.Create` and `external.Update`:
iterate the desired grants in order, call `AddGroup` for each, and abort on
the first failure, surfacing that error. Returns the calls issued and the
final outcome (`none` = all grants applied). -/
def addGroupLoop (svc : StubService) (project name : String) :
    List AdGroup → List Call × Option BBError
  | [] => ([], none)
  | g :: rest =>
    let group : Group := ⟨g.name, g.permission⟩
    match svc.addGroupResult group with
    | some e => ([Call.addGroup project name group], some e)
    | none =>
      let next := addGroupLoop svc project name rest
      (Call.addGroup project name group :: next.1, next.2)

/-- The prune loop of `external.Update`: iterate the remote grants in order;
a remote grant whose name occurs among the desired grants (names only) is
kept; any other is revoked, aborting on the first `RevokeGroup` failure. -/
def pruneLoop (svc : StubService) (project name : String)
    (crGroups : List AdGroup) : List Group → List Call × Option BBError
  | [] => ([], none)
  | group :: rest =>
    if crGroups.any fun crGroup => group.name == crGroup.name then
      pruneLoop svc project name crGroups rest
    else
      match svc.revokeGroupResult group with
      | some e => ([Call.revokeGroup project name group], some e)
      | none =>
        let next := pruneLoop svc project name crGroups rest
        (Call.revokeGroup project name group :: next.1, next.2)

/-- `external.Create`: create the repository from the desired record, then
apply the desired grants in order via `AddGroup`, aborting on the first
failure; nothing is rolled back. -/
def createExternal (svc : StubService) (cr : RepositoryParameters) :
    List Call × Option BBError :=
  let repoToCreate := repoFromSpec cr
  match svc.createResult with
  | .error e => ([Call.createRepo repoToCreate], some e)
  | .ok repository =>
    let grants := addGroupLoop svc repository.project repository.name cr.groups
    (Call.createRepo repoToCreate :: grants.1, grants.2)

/-- `external.Update`: update the repository from the desired record, fetch
the current remote grants, upsert every desired grant via `AddGroup`, and
then revoke every remote grant whose name is absent from the desired grants;
any failure aborts the remaining calls and is surfaced. -/
def updateExternal (svc : StubService) (cr : RepositoryParameters) :
    List Call × Option BBError :=
  let repoToUpdate := repoFromSpec cr
  match svc.updateResult with
  | .error e => ([Call.updateRepo repoToUpdate], some e)
  | .ok repo =>
    match svc.getGroupsResult with
    | .error e =>
      ([Call.updateRepo repoToUpdate, Call.getGroups repo.project repo.name],
       some e)
    | .ok groups =>
      let upserts := addGroupLoop svc repo.project repo.name cr.groups
      match upserts.2 with
      | some e =>
        (Call.updateRepo repoToUpdate :: Call.getGroups repo.project repo.name
          :: upserts.1, some e)
      | none =>
        let prunes := pruneLoop svc repo.project repo.name cr.groups groups
        (Call.updateRepo repoToUpdate :: Call.getGroups repo.project repo.name
          :: (upserts.1 ++ prunes.1), prunes.2)

/-- `external.Delete`: a single `Delete` call addressed by project and name;
its outcome is returned unchanged. -/
def deleteExternal (svc : StubService) (cr : RepositoryParameters) :
    List Call × Option BBError :=
  ([Call.deleteRepo cr.project cr.name], svc.deleteResult)

/-- An HTTP response as `Client.handleResponse` sees it: the status code,
the request URL (available via `res.Request.URL`), and the body bytes read
by `io.ReadAll`. -/
structure HttpResponse where
  statusCode : Nat
  url : String
  body : String
  deriving DecidableEq, Repr

/-- Outcome of `json.Unmarshal` on a body: success, a `*json.SyntaxError`,
or any other unmarshal failure. -/
inductive UnmarshalResult where
  | success
  | invalidJson
  | otherFailure (msg : String)
  deriving DecidableEq, Repr

/-- `Client.handleResponse`. The status switch maps 404/401/409 to the
sentinel errors; any other status ≥ 400 becomes a generic error carrying the
URL and the code; with a nil decode target (`hasTarget = false`) or a 204
status no decode is attempted; otherwise the body is unmarshalled, a JSON
syntax error is reclassified as `ErrResponseMalformed`, and any other
unmarshal error propagates as is. The body read by `io.ReadAll` is modelled
as always succeeding. `none` means the handler returns a nil error. -/
def handleResponse (res : HttpResponse) (hasTarget : Bool)
    (unmarshal : String → UnmarshalResult) : Option BBError :=
  if res.statusCode = 404 then some .notFound
  else if res.statusCode = 401 then some .permission
  else if res.statusCode = 409 then some .conflict
  else if res.statusCode ≥ 400 then some (.transport res.url res.statusCode)
  else if !hasTarget || res.statusCode == 204 then none
  else
    match unmarshal res.body with
    | .success => none
    | .invalidJson => some .malformed
    | .otherFailure m => some (.decodeFailure m)

/-- Whether a status code is a success (2xx) status. -/
def isSuccessStatus (s : Nat) : Bool := 200 ≤ s && s < 300

/-- Modelled from the claim's words, for comparison with `handleResponse`:
the classification as the claim states it, where the no-decode short cut
applies "on a success status with a nil decode target or status 204" and
every remaining response has its body decoded. -/
def claimClassify (res : HttpResponse) (hasTarget : Bool)
    (unmarshal : String → UnmarshalResult) : Option BBError :=
  if res.statusCode = 404 then some .notFound
  else if res.statusCode = 401 then some .permission
  else if res.statusCode = 409 then some .conflict
  else if res.statusCode ≥ 400 then some (.transport res.url res.statusCode)
  else if (isSuccessStatus res.statusCode && !hasTarget)
      || res.statusCode == 204 then none
  else
    match unmarshal res.body with
    | .success => none
    | .invalidJson => some .malformed
    | .otherFailure m => some (.decodeFailure m)

/-- The method and path of a request built by `Client.newRequest`, the two
components the Delete claims are about. -/
structure HttpRequest where
  method : String
  path : String
  deriving DecidableEq, Repr

/-- The request built by `repositoryService.Delete` in the resource client
that carries the group operations: `http.MethodDelete` on
`projects/{project}/repos/{name}`. -/
def deleteRequest (repository : Repository) : HttpRequest :=
  { method := "DELETE",
    path := "projects/" ++ repository.project ++ "/repos/" ++ repository.name }

/-- The request built by `repositoryService.Delete` in
`internal/bitbucket/repository.go`: the verb string is written `"PUT"` on
the same `projects/{project}/repos/{name}` path. -/
def deleteRequestInternal (repository : RepositoryInternal) : HttpRequest :=
  { method := "PUT",
    path := "projects/" ++ repository.project ++ "/repos/" ++ repository.name }

/-- One entry of the paginated permissions envelope:
`{group: {name: ...}, permission: ...}`. -/
structure GroupEntry where
  groupName : String
  permission : String
  deriving DecidableEq, Repr

/-- The decoded wire response of the permissions listing: the `values`
array of the paginated envelope. -/
structure GroupsResponse where
  values : List GroupEntry
  deriving DecidableEq, Repr

/-- The flattening loop of `repositoryService.GetGroups`: starting from the
non-nil empty slice `[]Group{}`, append one `Group` per envelope entry, in
the order received. -/
def getGroupsLoop : List GroupEntry → List Group → List Group
  | [], groups => groups
  | entry :: rest, groups =>
    getGroupsLoop rest (groups ++ [⟨entry.groupName, entry.permission⟩])

/-- `repositoryService.GetGroups` given the transport outcome of the listing
request: a transport error propagates; a decoded envelope is flattened into
a flat grant list in the order received. -/
def getGroupsService (raw : Except BBError GroupsResponse) :
    Except BBError (List Group) :=
  match raw with
  | .error e => .error e
  | .ok response => .ok (getGroupsLoop response.values [])

/-! ### Properties of the group comparison -/

/-- `groupsEqual` unfolded: equal lengths, and every desired grant has a
remote grant with the same (name, permission) pair. -/
theorem groupsEqual_eq_true_iff (crGroups : List AdGroup) (groups : List Group) :
    groupsEqual crGroups groups = true ↔
      crGroups.length = groups.length ∧
        ∀ c ∈ crGroups, ∃ g ∈ groups, AdGroup.pair c = Group.pair g := by
  unfold groupsEqual
  split
  · next h =>
    simp only [Bool.false_eq_true, false_iff, not_and]
    intro hlen
    exact absurd hlen h
  · next h =>
    push_neg at h
    simp [h, List.all_eq_true, List.any_eq_true, AdGroup.pair, Group.pair,
      Prod.ext_iff]

/-- A desired list with pairwise distinct names has pairwise distinct
(name, permission) pairs. -/
theorem pairs_nodup_of_names_nodup (crGroups : List AdGroup)
    (h : (crGroups.map AdGroup.name).Nodup) :
    (crGroups.map AdGroup.pair).Nodup := by
  have hmap : crGroups.map AdGroup.name
      = (crGroups.map AdGroup.pair).map Prod.fst := by
    simp [List.map_map, Function.comp, AdGroup.pair]
  rw [hmap] at h
  exact h.of_map Prod.fst

/-- Permuting the desired list does not change `groupsEqual`. -/
theorem groupsEqual_perm_left {crGroups₂ crGroups : List AdGroup}
    (groups : List Group) (hp : crGroups₂.Perm crGroups) :
    groupsEqual crGroups₂ groups = groupsEqual crGroups groups := by
  unfold groupsEqual
  rw [hp.length_eq]
  split
  · rfl
  · refine Bool.eq_iff_iff.mpr ?_
    simp only [List.all_eq_true]
    exact ⟨fun hall c hc => hall c (hp.mem_iff.mpr hc),
      fun hall c hc => hall c (hp.mem_iff.mp hc)⟩

/-- Permuting the remote list does not change `groupsEqual`. -/
theorem groupsEqual_perm_right (crGroups : List AdGroup)
    {groups₂ groups : List Group} (hp : groups₂.Perm groups) :
    groupsEqual crGroups groups₂ = groupsEqual crGroups groups := by
  unfold groupsEqual
  rw [hp.length_eq]
  split
  · rfl
  · refine Bool.eq_iff_iff.mpr ?_
    simp only [List.all_eq_true, List.any_eq_true]
    constructor <;> intro hall c hc
    · obtain ⟨g, hg, hmatch⟩ := hall c hc
      exact ⟨g, hp.mem_iff.mp hg, hmatch⟩
    · obtain ⟨g, hg, hmatch⟩ := hall c hc
      exact ⟨g, hp.mem_iff.mpr hg, hmatch⟩

/-- C1 (amended): for a desired list with at most one grant per group name,
`groupsEqual` returns true exactly when the remote (name, permission) pairs
are a permutation — multiset equality, not mere set equality — of the
desired ones; moreover the result is false whenever the two lists have
different lengths, and is unchanged by permuting either list. -/
theorem groupsEqual_iff_perm_pairs (crGroups : List AdGroup)
    (groups : List Group) (h : (crGroups.map AdGroup.name).Nodup) :
    (groupsEqual crGroups groups = true ↔
      (groups.map Group.pair).Perm (crGroups.map AdGroup.pair)) ∧
    (crGroups.length ≠ groups.length → groupsEqual crGroups groups = false) ∧
    (∀ crGroups₂ : List AdGroup, crGroups₂.Perm crGroups →
      groupsEqual crGroups₂ groups = groupsEqual crGroups groups) ∧
    (∀ groups₂ : List Group, groups₂.Perm groups →
      groupsEqual crGroups groups₂ = groupsEqual crGroups groups) := by
  refine ⟨⟨?_, ?_⟩, ?_, fun crGroups₂ hp => groupsEqual_perm_left groups hp,
    fun groups₂ hp => groupsEqual_perm_right crGroups hp⟩
  · intro heq
    rw [groupsEqual_eq_true_iff] at heq
    obtain ⟨hlen, hmem⟩ := heq
    have hsub : (crGroups.map AdGroup.pair) ⊆ (groups.map Group.pair) := by
      intro p hmem'
      simp only [List.mem_map] at hmem' ⊢
      obtain ⟨c, hc, rfl⟩ := hmem'
      obtain ⟨g, hg, hpair⟩ := hmem c hc
      exact ⟨g, hg, hpair.symm⟩
    have hnd := pairs_nodup_of_names_nodup crGroups h
    have hsp := List.subperm_of_subset hnd hsub
    exact (hsp.perm_of_length_le (by simp [hlen])).symm
  · intro hperm
    rw [groupsEqual_eq_true_iff]
    refine ⟨by simpa using hperm.length_eq.symm, fun c hc => ?_⟩
    have hp : AdGroup.pair c ∈ groups.map Group.pair := by
      rw [hperm.mem_iff]
      exact List.mem_map_of_mem _ hc
    simp only [List.mem_map] at hp
    obtain ⟨g, hg, hpair⟩ := hp
    exact ⟨g, hg, hpair.symm⟩
  · intro hlen
    unfold groupsEqual
    simp [hlen]

/-- C1 counterexample: set equality of the (name, permission) pairs does not
characterize `groupsEqual`. With desired `[A:read]` (names unique) and
remote `[A:read, A:read]`, the two pair sets coincide, yet `groupsEqual`
returns false because the lengths differ — as the claim itself requires. -/
theorem groupsEqual_set_equality_counterexample :
    ((([⟨"A", "read"⟩] : List AdGroup).map AdGroup.name).Nodup) ∧
    (([(⟨"A", "read"⟩ : Group), ⟨"A", "read"⟩].map Group.pair).toFinset
      = (([⟨"A", "read"⟩] : List AdGroup).map AdGroup.pair).toFinset) ∧
    groupsEqual [⟨"A", "read"⟩] [⟨"A", "read"⟩, ⟨"A", "read"⟩] = false :=
  ⟨by decide, by decide, by decide⟩

/-- C1 witness: the amended equivalence applied to the concrete desired list
`[A:read, B:write]` and its permuted remote counterpart. -/
theorem groupsEqual_iff_perm_pairs_witness :
    groupsEqual [⟨"A", "read"⟩, ⟨"B", "write"⟩]
      [⟨"B", "write"⟩, ⟨"A", "read"⟩] = true := by
  have h := groupsEqual_iff_perm_pairs
    [⟨"A", "read"⟩, ⟨"B", "write"⟩] [⟨"B", "write"⟩, ⟨"A", "read"⟩]
    (by decide)
  exact h.1.mpr (by decide)

/-! ### Concrete instances used to instantiate the theorems -/

/-- A concrete remote repository. -/
def repoBase : Repository :=
  { id := 7, name := "svc", public := false, project := "CORE",
    description := "x" }

/-- A concrete stub service where every remote call succeeds. -/
def stubBase : StubService :=
  { getResult := .ok repoBase,
    createResult := .ok repoBase,
    updateResult := .ok repoBase,
    deleteResult := none,
    getGroupsResult := .ok [⟨"A", "read"⟩, ⟨"B", "write"⟩],
    addGroupResult := fun _ => none,
    revokeGroupResult := fun _ => none }

/-- A concrete desired state: description "x", grants `[A:admin, C:read]`. -/
def crBase : RepositoryParameters :=
  { name := "svc", project := "CORE", public := false, description := "x",
    groups := [⟨"A", "admin"⟩, ⟨"C", "read"⟩] }

/-! ### Observe -/

/-- C3: when the fetch fails with the `NotFound` classification, Observe
returns `ResourceExists: false` with a nil error (the 404 is consumed as the
Missing-state signal); when it fails with any other classification, Observe
propagates that error and infers no state. -/
theorem observe_notfound_handling (svc : StubService)
    (cr : RepositoryParameters) (e : BBError) (h : svc.getResult = .error e) :
    (e = BBError.notFound →
      observeRepository svc cr
        = ([Call.getRepo cr.project cr.name], .ok ⟨false, false⟩)) ∧
    (e ≠ BBError.notFound →
      observeRepository svc cr
        = ([Call.getRepo cr.project cr.name], .error e)) := by
  unfold observeRepository
  rw [h]
  exact ⟨fun he => by simp [he], fun he => by simp [he]⟩

/-- C3 witness: a concrete `NotFound` fetch yields exists = false, nil
error, and a concrete `Conflict` fetch propagates the error. -/
theorem observe_notfound_handling_witness :
    observeRepository {stubBase with getResult := .error BBError.notFound}
        crBase
      = ([Call.getRepo "CORE" "svc"], .ok ⟨false, false⟩) ∧
    observeRepository {stubBase with getResult := .error BBError.conflict}
        crBase
      = ([Call.getRepo "CORE" "svc"], .error BBError.conflict) :=
  ⟨(observe_notfound_handling _ crBase BBError.notFound rfl).1 rfl,
   (observe_notfound_handling _ crBase BBError.conflict rfl).2 (by decide)⟩

/-- C4: when the fetch succeeds and the remote description differs from the
desired one, Observe returns exists = true, upToDate = false, issues no
group-listing call, and its result does not depend on what the group
listing would have returned. -/
theorem observe_description_short_circuit (svc : StubService)
    (cr : RepositoryParameters) (repo : Repository)
    (h : svc.getResult = .ok repo)
    (hd : repo.description ≠ cr.description) :
    observeRepository svc cr
      = ([Call.getRepo cr.project cr.name], .ok ⟨true, false⟩) ∧
    (∀ project name,
      Call.getGroups project name ∉ (observeRepository svc cr).1) ∧
    (∀ alt, observeRepository {svc with getGroupsResult := alt} cr
      = observeRepository svc cr) := by
  have hobs : observeRepository svc cr
      = ([Call.getRepo cr.project cr.name], .ok ⟨true, false⟩) := by
    unfold observeRepository
    rw [h]
    simp [hd]
  refine ⟨hobs, ?_, ?_⟩
  · intro project name
    rw [hobs]
    simp
  · intro alt
    rw [hobs]
    unfold observeRepository
    rw [show ({svc with getGroupsResult := alt} : StubService).getResult
      = svc.getResult from rfl, h]
    simp [hd]

/-- C4 witness: a remote whose description differs and whose group listing
would also fail the group check still observes as exists = true,
upToDate = false with no group call. -/
theorem observe_description_short_circuit_witness :
    observeRepository
        {stubBase with getResult := .ok {repoBase with description := "y"}}
        crBase
      = ([Call.getRepo "CORE" "svc"], .ok ⟨true, false⟩) :=
  (observe_description_short_circuit _ crBase
    {repoBase with description := "y"} rfl (by decide)).1

/-- C9: when the fetch succeeds, the description matches, and the group
listing fails, Observe never propagates that failure: the nil grant slice is
compared against the desired grants, so the result is exists = true with
upToDate = true exactly when the desired grant list is empty. -/
theorem observe_group_fetch_error_ignored (svc : StubService)
    (cr : RepositoryParameters) (repo : Repository) (e : BBError)
    (h : svc.getResult = .ok repo)
    (hd : repo.description = cr.description)
    (hg : svc.getGroupsResult = .error e) :
    observeRepository svc cr
      = ([Call.getRepo cr.project cr.name,
          Call.getGroups repo.project repo.name],
         .ok ⟨true, cr.groups.isEmpty⟩) := by
  unfold observeRepository
  rw [h, hg]
  simp only [hd, ne_eq, not_true_eq_false, if_false]
  cases cr.groups <;> simp [groupsEqual]

/-- C9 witness: with a failing group listing, a desired state with grants
observes as exists = true, upToDate = false — not as an error. -/
theorem observe_group_fetch_error_ignored_witness :
    observeRepository
        {stubBase with
          getGroupsResult := .error (BBError.transport "u" 500)} crBase
      = ([Call.getRepo "CORE" "svc", Call.getGroups "CORE" "svc"],
         .ok ⟨true, false⟩) :=
  observe_group_fetch_error_ignored _ crBase repoBase
    (BBError.transport "u" 500) rfl rfl rfl

/-! ### The grant loop -/

/-- When every `AddGroup` call succeeds, the loop issues one call per
desired grant, in order, and reports success. -/
theorem addGroupLoop_success (svc : StubService) (project name : String)
    (gs : List AdGroup)
    (h : ∀ g ∈ gs, svc.addGroupResult ⟨g.name, g.permission⟩ = none) :
    addGroupLoop svc project name gs
      = (gs.map fun g => Call.addGroup project name ⟨g.name, g.permission⟩,
         none) := by
  induction gs with
  | nil => rfl
  | cons g rest ih =>
    have hg := h g (List.mem_cons_self g rest)
    have hrest := ih fun x hx => h x (List.mem_cons_of_mem g hx)
    simp [addGroupLoop, hg, hrest]

/-- The first failing `AddGroup` call aborts the loop: the calls issued are
exactly those for the successful head and the failing grant, and the
failure is surfaced. -/
theorem addGroupLoop_abort (svc : StubService) (project name : String)
    (pre : List AdGroup) (g : AdGroup) (post : List AdGroup) (e : BBError)
    (hpre : ∀ x ∈ pre, svc.addGroupResult ⟨x.name, x.permission⟩ = none)
    (hg : svc.addGroupResult ⟨g.name, g.permission⟩ = some e) :
    addGroupLoop svc project name (pre ++ g :: post)
      = ((pre ++ [g]).map fun x =>
          Call.addGroup project name ⟨x.name, x.permission⟩,
         some e) := by
  induction pre with
  | nil => simp [addGroupLoop, hg]
  | cons x rest ih =>
    have hx := hpre x (List.mem_cons_self x rest)
    have hrest := ih fun y hy => hpre y (List.mem_cons_of_mem x hy)
    simp [addGroupLoop, hx, hrest]

/-- Every call issued by the grant loop is an `AddGroup` call. -/
theorem addGroupLoop_calls (svc : StubService) (project name : String)
    (gs : List AdGroup) :
    ∀ c ∈ (addGroupLoop svc project name gs).1,
      ∃ g : Group, c = Call.addGroup project name g := by
  induction gs with
  | nil =>
    intro c hc
    simp [addGroupLoop] at hc
  | cons g rest ih =>
    intro c hc
    cases hsvc : svc.addGroupResult ⟨g.name, g.permission⟩ with
    | some e =>
      simp [addGroupLoop, hsvc] at hc
      exact ⟨_, hc⟩
    | none =>
      simp [addGroupLoop, hsvc] at hc
      rcases hc with rfl | hc
      · exact ⟨_, rfl⟩
      · exact ih c hc

/-! ### Create -/

/-- C7: Create issues the repository-create call first, with the desired
name, project and description; on its success it calls `AddGroup` for each
desired grant in the order given; a create failure yields no grant call; the
first failing grant call aborts the remaining grant calls and surfaces that
error; and no run of Create ever issues a revoke or a delete call (nothing
is rolled back). -/
theorem create_call_sequence (svc : StubService) (cr : RepositoryParameters) :
    (createExternal svc cr).1.head?
      = some (Call.createRepo (repoFromSpec cr)) ∧
    (∀ e, svc.createResult = .error e →
      createExternal svc cr
        = ([Call.createRepo (repoFromSpec cr)], some e)) ∧
    (∀ repo, svc.createResult = .ok repo →
      (∀ g ∈ cr.groups, svc.addGroupResult ⟨g.name, g.permission⟩ = none) →
      createExternal svc cr
        = (Call.createRepo (repoFromSpec cr)
            :: cr.groups.map (fun g =>
              Call.addGroup repo.project repo.name ⟨g.name, g.permission⟩),
           none)) ∧
    (∀ repo pre g post e, svc.createResult = .ok repo →
      cr.groups = pre ++ g :: post →
      (∀ x ∈ pre, svc.addGroupResult ⟨x.name, x.permission⟩ = none) →
      svc.addGroupResult ⟨g.name, g.permission⟩ = some e →
      createExternal svc cr
        = (Call.createRepo (repoFromSpec cr)
            :: (pre ++ [g]).map (fun x =>
              Call.addGroup repo.project repo.name ⟨x.name, x.permission⟩),
           some e)) ∧
    (∀ project name g,
      Call.revokeGroup project name g ∉ (createExternal svc cr).1) ∧
    (∀ project name,
      Call.deleteRepo project name ∉ (createExternal svc cr).1) := by
  refine ⟨?_, ?_, ?_, ?_, ?_, ?_⟩
  · unfold createExternal
    cases svc.createResult <;> rfl
  · intro e he
    simp [createExternal, he]
  · intro repo hok hgrants
    simp [createExternal, hok,
      addGroupLoop_success svc repo.project repo.name cr.groups hgrants]
  · intro repo pre g post e hok hsplit hpre hg
    simp [createExternal, hok, hsplit,
      addGroupLoop_abort svc repo.project repo.name pre g post e hpre hg]
  · intro project name g hmem
    cases hok : svc.createResult with
    | error e =>
      simp [createExternal, hok] at hmem
    | ok repo =>
      simp only [createExternal, hok, List.mem_cons] at hmem
      rcases hmem with hmem | hmem
      · exact Call.noConfusion hmem
      · obtain ⟨g', hg'⟩ := addGroupLoop_calls svc repo.project repo.name
          cr.groups _ hmem
        exact Call.noConfusion hg'
  · intro project name hmem
    cases hok : svc.createResult with
    | error e =>
      simp [createExternal, hok] at hmem
    | ok repo =>
      simp only [createExternal, hok, List.mem_cons] at hmem
      rcases hmem with hmem | hmem
      · exact Call.noConfusion hmem
      · obtain ⟨g', hg'⟩ := addGroupLoop_calls svc repo.project repo.name
          cr.groups _ hmem
        exact Call.noConfusion hg'

/-- C7 witness: against the all-success stub, Create for the concrete
desired state issues the create call and then one `AddGroup` per grant, in
order, and reports success. -/
theorem create_call_sequence_witness :
    createExternal stubBase crBase
      = (Call.createRepo (repoFromSpec crBase)
          :: [Call.addGroup "CORE" "svc" ⟨"A", "admin"⟩,
              Call.addGroup "CORE" "svc" ⟨"C", "read"⟩],
         none) :=
  (create_call_sequence stubBase crBase).2.2.1 repoBase rfl
    (fun _ _ => rfl)

/-! ### The prune loop -/

/-- When every `RevokeGroup` call succeeds, the prune loop revokes exactly
the remote grants whose name does not occur among the desired grants, in
the order received, and reports success. -/
theorem pruneLoop_success (svc : StubService) (project name : String)
    (crGroups : List AdGroup) (groups : List Group)
    (h : ∀ g ∈ groups, svc.revokeGroupResult g = none) :
    pruneLoop svc project name crGroups groups
      = ((groups.filter fun g =>
            !(crGroups.any fun crGroup => g.name == crGroup.name)).map
          (Call.revokeGroup project name),
         none) := by
  induction groups with
  | nil => rfl
  | cons g rest ih =>
    have hg := h g (List.mem_cons_self g rest)
    have hrest := ih fun x hx => h x (List.mem_cons_of_mem g hx)
    by_cases hc : (crGroups.any fun crGroup => g.name == crGroup.name) = true
    · simp [pruneLoop, hc, hrest, List.filter_cons]
    · simp only [Bool.not_eq_true] at hc
      simp [pruneLoop, hc, hg, hrest, List.filter_cons]

/-- The first failing `RevokeGroup` call aborts the prune loop: with every
earlier non-desired remote grant revoking successfully, the calls issued
are exactly the revokes of those earlier grants, in order, followed by the
failing revoke; the grants after the failing one are never touched and the
failure is surfaced. -/
theorem pruneLoop_abort (svc : StubService) (project name : String)
    (crGroups : List AdGroup) (rpre : List Group) (g : Group)
    (rpost : List Group) (e : BBError)
    (hpre : ∀ x ∈ rpre,
      (crGroups.any fun crGroup => x.name == crGroup.name) = false →
      svc.revokeGroupResult x = none)
    (hgname : (crGroups.any fun crGroup => g.name == crGroup.name) = false)
    (hge : svc.revokeGroupResult g = some e) :
    pruneLoop svc project name crGroups (rpre ++ g :: rpost)
      = (((rpre.filter fun x =>
            !(crGroups.any fun crGroup => x.name == crGroup.name)) ++ [g]).map
          (Call.revokeGroup project name),
         some e) := by
  induction rpre with
  | nil => simp [pruneLoop, hgname, hge]
  | cons x rest ih =>
    have hrest := ih fun y hy => hpre y (List.mem_cons_of_mem x hy)
    by_cases hc : (crGroups.any fun crGroup => x.name == crGroup.name) = true
    · simp [pruneLoop, hc, hrest, List.filter_cons]
    · simp only [Bool.not_eq_true] at hc
      have hx := hpre x (List.mem_cons_self x rest) hc
      simp [pruneLoop, hc, hx, hrest, List.filter_cons]

/-- Every call issued by the prune loop is a `RevokeGroup` call for a grant
whose name does not occur among the desired grants. -/
theorem pruneLoop_calls (svc : StubService) (project name : String)
    (crGroups : List AdGroup) (groups : List Group) :
    ∀ c ∈ (pruneLoop svc project name crGroups groups).1,
      ∃ g : Group, c = Call.revokeGroup project name g ∧
        (crGroups.any fun crGroup => g.name == crGroup.name) = false := by
  induction groups with
  | nil =>
    intro c hc
    simp [pruneLoop] at hc
  | cons g rest ih =>
    intro c hc
    by_cases hcond : (crGroups.any fun crGroup => g.name == crGroup.name)
        = true
    · rw [show pruneLoop svc project name crGroups (g :: rest)
        = pruneLoop svc project name crGroups rest by
          simp [pruneLoop, hcond]] at hc
      exact ih c hc
    · simp only [Bool.not_eq_true] at hcond
      cases hsvc : svc.revokeGroupResult g with
      | some e =>
        simp [pruneLoop, hcond, hsvc] at hc
        exact ⟨g, hc, hcond⟩
      | none =>
        simp [pruneLoop, hcond, hsvc] at hc
        rcases hc with rfl | hc
        · exact ⟨g, rfl, hcond⟩
        · exact ih c hc

/-- Splitting an append at an element that does not occur in the first
part: everything after that element belongs to the second part. -/
theorem mem_snd_of_split_at {α : Type} (A B l₁ l₂ : List α) (x : α)
    (hx : x ∉ A) (h : A ++ B = l₁ ++ x :: l₂) : ∀ a ∈ l₂, a ∈ B := by
  induction A generalizing l₁ with
  | nil =>
    intro a ha
    simp only [List.nil_append] at h
    rw [h]
    exact List.mem_append_right l₁ (List.mem_cons_of_mem x ha)
  | cons y A' ih =>
    cases l₁ with
    | nil =>
      simp only [List.cons_append, List.nil_append, List.cons.injEq] at h
      exact absurd (h.1 ▸ List.mem_cons_self y A') hx
    | cons z l₁' =>
      simp only [List.cons_append, List.cons.injEq] at h
      exact ih l₁' (fun hmem => hx (List.mem_cons_of_mem y hmem)) h.2

/-! ### Update -/

/-- C2: Update issues the repository update first; after the grant listing
it calls `AddGroup` once per desired grant, in order; with every call
succeeding, it afterwards calls `RevokeGroup` for exactly those remote
grants whose name does not occur among the desired grants, in the order
received; the first failing call — update, listing, upsert or revoke —
aborts all remaining calls and surfaces the error; a grant whose name
occurs among the desired grants is never revoked; and no `AddGroup` call
ever follows a `RevokeGroup` call. -/
theorem update_call_sequence (svc : StubService) (cr : RepositoryParameters) :
    (updateExternal svc cr).1.head?
      = some (Call.updateRepo (repoFromSpec cr)) ∧
    (∀ e, svc.updateResult = .error e →
      updateExternal svc cr
        = ([Call.updateRepo (repoFromSpec cr)], some e)) ∧
    (∀ repo e, svc.updateResult = .ok repo →
      svc.getGroupsResult = .error e →
      updateExternal svc cr
        = ([Call.updateRepo (repoFromSpec cr),
            Call.getGroups repo.project repo.name], some e)) ∧
    (∀ repo groups, svc.updateResult = .ok repo →
      svc.getGroupsResult = .ok groups →
      (∀ g ∈ cr.groups, svc.addGroupResult ⟨g.name, g.permission⟩ = none) →
      (∀ g ∈ groups, svc.revokeGroupResult g = none) →
      updateExternal svc cr
        = (Call.updateRepo (repoFromSpec cr)
            :: Call.getGroups repo.project repo.name
            :: ((cr.groups.map fun g =>
                  Call.addGroup repo.project repo.name
                    ⟨g.name, g.permission⟩)
              ++ ((groups.filter fun g =>
                    !(cr.groups.any fun crGroup =>
                      g.name == crGroup.name)).map
                  (Call.revokeGroup repo.project repo.name))),
           none)) ∧
    (∀ repo groups pre g post e, svc.updateResult = .ok repo →
      svc.getGroupsResult = .ok groups →
      cr.groups = pre ++ g :: post →
      (∀ x ∈ pre, svc.addGroupResult ⟨x.name, x.permission⟩ = none) →
      svc.addGroupResult ⟨g.name, g.permission⟩ = some e →
      updateExternal svc cr
        = (Call.updateRepo (repoFromSpec cr)
            :: Call.getGroups repo.project repo.name
            :: (pre ++ [g]).map (fun x =>
                Call.addGroup repo.project repo.name ⟨x.name, x.permission⟩),
           some e)) ∧
    (∀ repo groups rpre g rpost e, svc.updateResult = .ok repo →
      svc.getGroupsResult = .ok groups →
      (∀ x ∈ cr.groups, svc.addGroupResult ⟨x.name, x.permission⟩ = none) →
      groups = rpre ++ g :: rpost →
      (∀ x ∈ rpre,
        (cr.groups.any fun crGroup => x.name == crGroup.name) = false →
        svc.revokeGroupResult x = none) →
      (cr.groups.any fun crGroup => g.name == crGroup.name) = false →
      svc.revokeGroupResult g = some e →
      updateExternal svc cr
        = (Call.updateRepo (repoFromSpec cr)
            :: Call.getGroups repo.project repo.name
            :: ((cr.groups.map fun x =>
                  Call.addGroup repo.project repo.name
                    ⟨x.name, x.permission⟩)
              ++ (((rpre.filter fun x =>
                    !(cr.groups.any fun crGroup =>
                      x.name == crGroup.name)) ++ [g]).map
                  (Call.revokeGroup repo.project repo.name))),
           some e)) ∧
    (∀ project name g,
      Call.revokeGroup project name g ∈ (updateExternal svc cr).1 →
      (cr.groups.any fun crGroup => g.name == crGroup.name) = false) ∧
    (∀ l₁ project name g l₂,
      (updateExternal svc cr).1
        = l₁ ++ Call.revokeGroup project name g :: l₂ →
      ∀ project' name' g', Call.addGroup project' name' g' ∉ l₂) := by
  refine ⟨?_, ?_, ?_, ?_, ?_, ?_, ?_, ?_⟩
  · cases hu : svc.updateResult with
    | error e => simp [updateExternal, hu]
    | ok repo =>
      cases hg : svc.getGroupsResult with
      | error e => simp [updateExternal, hu, hg]
      | ok groups =>
        rcases hup : addGroupLoop svc repo.project repo.name cr.groups
          with ⟨ucalls, ures⟩
        cases ures <;> simp [updateExternal, hu, hg, hup]
  · intro e he
    simp [updateExternal, he]
  · intro repo e hu hg
    simp [updateExternal, hu, hg]
  · intro repo groups hu hg hadd hrev
    simp [updateExternal, hu, hg,
      addGroupLoop_success svc repo.project repo.name cr.groups hadd,
      pruneLoop_success svc repo.project repo.name cr.groups groups hrev]
  · intro repo groups pre g post e hu hg hsplit hpre hgf
    simp [updateExternal, hu, hg, hsplit,
      addGroupLoop_abort svc repo.project repo.name pre g post e hpre hgf]
  · intro repo groups rpre g rpost e hu hg hadd hsplit hrpre hgname hge
    simp [updateExternal, hu, hg, hsplit,
      addGroupLoop_success svc repo.project repo.name cr.groups hadd,
      pruneLoop_abort svc repo.project repo.name cr.groups rpre g rpost e
        hrpre hgname hge]
  · intro project name g hmem
    cases hu : svc.updateResult with
    | error e => simp [updateExternal, hu] at hmem
    | ok repo =>
      cases hg : svc.getGroupsResult with
      | error e => simp [updateExternal, hu, hg] at hmem
      | ok groups =>
        rcases hup : addGroupLoop svc repo.project repo.name cr.groups
          with ⟨ucalls, ures⟩
        cases ures with
        | some e =>
          simp [updateExternal, hu, hg, hup] at hmem
          obtain ⟨g', hg'⟩ := addGroupLoop_calls svc repo.project repo.name
            cr.groups _ (by rw [hup]; exact hmem)
          exact Call.noConfusion hg'
        | none =>
          rcases hpr : pruneLoop svc repo.project repo.name cr.groups groups
            with ⟨pcalls, pres⟩
          simp [updateExternal, hu, hg, hup, hpr] at hmem
          rcases hmem with hmem | hmem
          · obtain ⟨g', hg'⟩ := addGroupLoop_calls svc repo.project
              repo.name cr.groups _ (by rw [hup]; exact hmem)
            exact Call.noConfusion hg'
          · obtain ⟨g', hg', hprop⟩ := pruneLoop_calls svc repo.project
              repo.name cr.groups groups _ (by rw [hpr]; exact hmem)
            injection hg' with h1 h2 h3
            rw [h3]
            exact hprop
  · intro l₁ project name g l₂ hsplit project' name' g' hmem
    have happly : ∀ A B : List Call,
        (updateExternal svc cr).1 = A ++ B →
        Call.revokeGroup project name g ∉ A →
        Call.addGroup project' name' g' ∉ B → False := fun A B htr hnA hnB =>
      hnB (mem_snd_of_split_at A B l₁ l₂ _ hnA (htr.symm.trans hsplit)
        _ hmem)
    cases hu : svc.updateResult with
    | error e =>
      exact happly [Call.updateRepo (repoFromSpec cr)] []
        (by simp [updateExternal, hu]) (by simp) (by simp)
    | ok repo =>
      cases hg : svc.getGroupsResult with
      | error e =>
        exact happly [Call.updateRepo (repoFromSpec cr),
            Call.getGroups repo.project repo.name] []
          (by simp [updateExternal, hu, hg]) (by simp) (by simp)
      | ok groups =>
        rcases hup : addGroupLoop svc repo.project repo.name cr.groups
          with ⟨ucalls, ures⟩
        have hnotu : Call.revokeGroup project name g ∉ ucalls := by
          intro hm
          obtain ⟨g'', hg''⟩ := addGroupLoop_calls svc repo.project
            repo.name cr.groups _ (by rw [hup]; exact hm)
          exact Call.noConfusion hg''
        cases ures with
        | some e =>
          exact happly (Call.updateRepo (repoFromSpec cr)
              :: Call.getGroups repo.project repo.name :: ucalls) []
            (by simp [updateExternal, hu, hg, hup]) (by simp [hnotu])
            (by simp)
        | none =>
          rcases hpr : pruneLoop svc repo.project repo.name cr.groups groups
            with ⟨pcalls, pres⟩
          have hnotp : Call.addGroup project' name' g' ∉ pcalls := by
            intro hm
            obtain ⟨g'', hg'', _⟩ := pruneLoop_calls svc repo.project
              repo.name cr.groups groups _ (by rw [hpr]; exact hm)
            exact Call.noConfusion hg''
          exact happly (Call.updateRepo (repoFromSpec cr)
              :: Call.getGroups repo.project repo.name :: ucalls) pcalls
            (by simp [updateExternal, hu, hg, hup, hpr]) (by simp [hnotu])
            hnotp

/-- C2 witness: with remote grants `[A:read, B:write]` and desired grants
`[A:admin, C:read]`, all calls succeeding, the call sequence is the update,
the listing, upsert A→admin, upsert C→read, and then revoke B. -/
theorem update_call_sequence_witness :
    updateExternal stubBase crBase
      = (Call.updateRepo (repoFromSpec crBase)
          :: Call.getGroups "CORE" "svc"
          :: [Call.addGroup "CORE" "svc" ⟨"A", "admin"⟩,
              Call.addGroup "CORE" "svc" ⟨"C", "read"⟩,
              Call.revokeGroup "CORE" "svc" ⟨"B", "write"⟩],
         none) := by
  have h := (update_call_sequence stubBase crBase).2.2.2.1 repoBase
    [⟨"A", "read"⟩, ⟨"B", "write"⟩] rfl rfl (fun g _ => rfl) (fun g _ => rfl)
  exact h.trans (by decide)

/-! ### Shapes of the traces -/

/-- Every call Create issues is the create call with the body built from
the desired record, or an `AddGroup` call. -/
theorem createExternal_calls (svc : StubService) (cr : RepositoryParameters) :
    ∀ c ∈ (createExternal svc cr).1,
      c = Call.createRepo (repoFromSpec cr) ∨
      ∃ project name g, c = Call.addGroup project name g := by
  intro c hc
  cases hok : svc.createResult with
  | error e =>
    simp [createExternal, hok] at hc
    exact Or.inl hc
  | ok repo =>
    simp only [createExternal, hok, List.mem_cons] at hc
    rcases hc with hc | hc
    · exact Or.inl hc
    · obtain ⟨g', hg'⟩ := addGroupLoop_calls svc repo.project repo.name
        cr.groups _ hc
      exact Or.inr ⟨repo.project, repo.name, g', hg'⟩

/-- Every call Update issues is the update call with the body built from
the desired record, a grant listing, an `AddGroup` call, or a
`RevokeGroup` call. -/
theorem updateExternal_calls (svc : StubService) (cr : RepositoryParameters) :
    ∀ c ∈ (updateExternal svc cr).1,
      c = Call.updateRepo (repoFromSpec cr) ∨
      (∃ project name, c = Call.getGroups project name) ∨
      (∃ project name g, c = Call.addGroup project name g) ∨
      (∃ project name g, c = Call.revokeGroup project name g) := by
  intro c hc
  cases hu : svc.updateResult with
  | error e =>
    simp [updateExternal, hu] at hc
    exact Or.inl hc
  | ok repo =>
    cases hg : svc.getGroupsResult with
    | error e =>
      simp [updateExternal, hu, hg] at hc
      rcases hc with hc | hc
      · exact Or.inl hc
      · exact Or.inr (Or.inl ⟨repo.project, repo.name, hc⟩)
    | ok groups =>
      rcases hup : addGroupLoop svc repo.project repo.name cr.groups
        with ⟨ucalls, ures⟩
      have hinu : c ∈ ucalls →
          ∃ project name g, c = Call.addGroup project name g := by
        intro hm
        obtain ⟨g', hg'⟩ := addGroupLoop_calls svc repo.project repo.name
          cr.groups _ (by rw [hup]; exact hm)
        exact ⟨repo.project, repo.name, g', hg'⟩
      cases ures with
      | some e =>
        simp only [updateExternal, hu, hg, hup, List.mem_cons] at hc
        rcases hc with hc | hc | hc
        · exact Or.inl hc
        · exact Or.inr (Or.inl ⟨repo.project, repo.name, hc⟩)
        · exact Or.inr (Or.inr (Or.inl (hinu hc)))
      | none =>
        rcases hpr : pruneLoop svc repo.project repo.name cr.groups groups
          with ⟨pcalls, pres⟩
        simp only [updateExternal, hu, hg, hup, hpr, List.mem_cons,
          List.mem_append] at hc
        rcases hc with hc | hc | hc | hc
        · exact Or.inl hc
        · exact Or.inr (Or.inl ⟨repo.project, repo.name, hc⟩)
        · exact Or.inr (Or.inr (Or.inl (hinu hc)))
        · obtain ⟨g', hg', _⟩ := pruneLoop_calls svc repo.project repo.name
            cr.groups groups _ (by rw [hpr]; exact hc)
          exact Or.inr (Or.inr (Or.inr ⟨repo.project, repo.name, g', hg'⟩))

/-! ### Visibility noninterference -/

/-- C8: two desired records that differ only in the `public` flag are
indistinguishable to every engine operation: Observe, Create, Update and
Delete produce identical traces — hence identical outgoing payloads — and
identical results; moreover every repository body Create or Update sends
carries `public = false`, whatever the desired flag. -/
theorem public_flag_noninterference (svc : StubService)
    (cr : RepositoryParameters) (b : Bool) :
    observeRepository svc {cr with public := b}
      = observeRepository svc cr ∧
    createExternal svc {cr with public := b} = createExternal svc cr ∧
    updateExternal svc {cr with public := b} = updateExternal svc cr ∧
    deleteExternal svc {cr with public := b} = deleteExternal svc cr ∧
    (∀ r, Call.createRepo r ∈ (createExternal svc cr).1 →
      r.public = false) ∧
    (∀ r, Call.updateRepo r ∈ (updateExternal svc cr).1 →
      r.public = false) := by
  obtain ⟨name, project, pub, description, groups⟩ := cr
  refine ⟨rfl, rfl, rfl, rfl, ?_, ?_⟩
  · intro r hmem
    rcases createExternal_calls svc _ _ hmem with h | ⟨p, n, g, h⟩
    · injection h with h1
      rw [h1]
      rfl
    · exact Call.noConfusion h
  · intro r hmem
    rcases updateExternal_calls svc _ _ hmem
      with h | ⟨p, n, h⟩ | ⟨p, n, g, h⟩ | ⟨p, n, g, h⟩
    · injection h with h1
      rw [h1]
      rfl
    · exact Call.noConfusion h
    · exact Call.noConfusion h
    · exact Call.noConfusion h

/-- C8 witness: flipping only the `public` flag of the concrete desired
state changes no operation's trace or result, and the concrete create body
carries `public = false`. -/
theorem public_flag_noninterference_witness :
    createExternal stubBase {crBase with public := true}
      = createExternal stubBase crBase ∧
    updateExternal stubBase {crBase with public := true}
      = updateExternal stubBase crBase ∧
    (repoFromSpec crBase).public = false :=
  ⟨(public_flag_noninterference stubBase crBase true).2.1,
   (public_flag_noninterference stubBase crBase true).2.2.1,
   (public_flag_noninterference stubBase crBase true).2.2.2.2.1
     (repoFromSpec crBase)
     (by decide)⟩

/-! ### Transport classification -/

/-- C5 (amended): `handleResponse` classifies 404 as `NotFound`, 401 as
`PermissionDenied`, 409 as `Conflict`, and any other status ≥ 400 as a
generic transport error carrying the URL and status code; on any status
below 400 with a nil decode target or status 204 it returns nil without
attempting a decode (the result does not depend on the decoder); otherwise
it decodes the body, reclassifying a JSON syntax error as `Malformed` and
propagating any other decode error unreclassified. -/
theorem handleResponse_classification (res : HttpResponse) (hasTarget : Bool)
    (unmarshal : String → UnmarshalResult) :
    (res.statusCode = 404 →
      handleResponse res hasTarget unmarshal = some .notFound) ∧
    (res.statusCode = 401 →
      handleResponse res hasTarget unmarshal = some .permission) ∧
    (res.statusCode = 409 →
      handleResponse res hasTarget unmarshal = some .conflict) ∧
    (res.statusCode ≠ 404 → res.statusCode ≠ 401 → res.statusCode ≠ 409 →
      400 ≤ res.statusCode →
      handleResponse res hasTarget unmarshal
        = some (.transport res.url res.statusCode)) ∧
    (res.statusCode < 400 → (hasTarget = false ∨ res.statusCode = 204) →
      handleResponse res hasTarget unmarshal = none ∧
      ∀ unmarshal', handleResponse res hasTarget unmarshal'
        = handleResponse res hasTarget unmarshal) ∧
    (res.statusCode < 400 → hasTarget = true → res.statusCode ≠ 204 →
      (unmarshal res.body = .success →
        handleResponse res hasTarget unmarshal = none) ∧
      (unmarshal res.body = .invalidJson →
        handleResponse res hasTarget unmarshal = some .malformed) ∧
      (∀ m, unmarshal res.body = .otherFailure m →
        handleResponse res hasTarget unmarshal
          = some (.decodeFailure m))) := by
  refine ⟨?_, ?_, ?_, ?_, ?_, ?_⟩
  · intro h
    simp [handleResponse, h]
  · intro h
    simp [handleResponse, h]
  · intro h
    simp [handleResponse, h]
  · intro h404 h401 h409 hge
    simp [handleResponse, h404, h401, h409, hge]
  · intro hlt hcond
    have h404 : res.statusCode ≠ 404 := by omega
    have h401 : res.statusCode ≠ 401 := by omega
    have h409 : res.statusCode ≠ 409 := by omega
    have hge : ¬ 400 ≤ res.statusCode := by omega
    have hdone : ∀ u : String → UnmarshalResult,
        handleResponse res hasTarget u = none := by
      intro u
      rcases hcond with hc | hc <;>
        simp [handleResponse, h404, h401, h409, hge, hc]
    exact ⟨hdone unmarshal, fun u' => (hdone u').trans (hdone unmarshal).symm⟩
  · intro hlt ht h204
    have h404 : res.statusCode ≠ 404 := by omega
    have h401 : res.statusCode ≠ 401 := by omega
    have h409 : res.statusCode ≠ 409 := by omega
    have hge : ¬ 400 ≤ res.statusCode := by omega
    refine ⟨fun hu => ?_, fun hu => ?_, fun m hu => ?_⟩ <;>
      simp [handleResponse, h404, h401, h409, hge, ht, h204, hu]

/-- C5 counterexample: at status 302 with a nil decode target and a body
whose decode would raise a JSON syntax error, the claim's case split —
no-decode only "on a success status with a nil decode target or status
204", decode otherwise — yields `Malformed`, but `handleResponse` returns
nil without decoding: its no-decode short cut covers every status below
400, not only success statuses. -/
theorem handleResponse_claim_counterexample :
    handleResponse ⟨302, "u", "x"⟩ false (fun _ => .invalidJson) = none ∧
    claimClassify ⟨302, "u", "x"⟩ false (fun _ => .invalidJson)
      = some .malformed ∧
    handleResponse ⟨302, "u", "x"⟩ false (fun _ => .invalidJson)
      ≠ claimClassify ⟨302, "u", "x"⟩ false (fun _ => .invalidJson) :=
  ⟨rfl, rfl, by decide⟩

/-- C5 witness: a 200 response with a decode target and a body that is not
valid JSON classifies as `Malformed`. -/
theorem handleResponse_classification_witness :
    handleResponse ⟨200, "u", "nope"⟩ true (fun _ => .invalidJson)
      = some BBError.malformed :=
  ((handleResponse_classification ⟨200, "u", "nope"⟩ true
      (fun _ => .invalidJson)).2.2.2.2.2
    (by decide) rfl (by decide)).2.1 rfl

/-! ### Delete request verb -/

/-- C6 (code evaluated at the failing input): for the repository reference
(project "CORE", name "svc"), the Delete of the resource client that also
carries the group operations builds a DELETE request on
`projects/CORE/repos/svc`, but the Delete in
`internal/bitbucket/repository.go` builds a PUT request on the same path —
not the DELETE the claim (and the design notes) require. -/
theorem delete_request_verb_mismatch :
    deleteRequest ⟨0, "svc", false, "CORE", ""⟩
      = { method := "DELETE", path := "projects/CORE/repos/svc" } ∧
    deleteRequestInternal ⟨0, "svc", "CORE", ""⟩
      = { method := "PUT", path := "projects/CORE/repos/svc" } ∧
    (deleteRequestInternal ⟨0, "svc", "CORE", ""⟩).method ≠ "DELETE" :=
  ⟨rfl, rfl, by decide⟩

/-! ### Group listing -/

/-- The flattening loop appends one grant per envelope entry, in order. -/
theorem getGroupsLoop_eq_map (entries : List GroupEntry)
    (acc : List Group) :
    getGroupsLoop entries acc
      = acc ++ entries.map fun e => ⟨e.groupName, e.permission⟩ := by
  induction entries generalizing acc with
  | nil => simp [getGroupsLoop]
  | cons e rest ih => simp [getGroupsLoop, ih]

/-- C10: when the listing succeeds, `GetGroups` returns the grants decoded
from the paginated `values` envelope, flattened in the order received; an
empty envelope yields a present (successfully returned) empty sequence,
never an absent result. -/
theorem getGroups_flattening (raw : Except BBError GroupsResponse)
    (response : GroupsResponse) (h : raw = .ok response) :
    getGroupsService raw
      = .ok (response.values.map fun e => ⟨e.groupName, e.permission⟩) ∧
    (response.values = [] →
      getGroupsService raw = .ok ([] : List Group)) := by
  subst h
  refine ⟨?_, fun hempty => ?_⟩
  · simp [getGroupsService, getGroupsLoop_eq_map]
  · simp [getGroupsService, hempty, getGroupsLoop]

/-- C10 witness: a one-entry envelope flattens to the one grant, and an
empty envelope yields the empty grant list. -/
theorem getGroups_flattening_witness :
    getGroupsService (.ok ⟨[⟨"devs", "write"⟩]⟩)
      = .ok [(⟨"devs", "write"⟩ : Group)] ∧
    getGroupsService (.ok ⟨[]⟩) = .ok ([] : List Group) :=
  ⟨(getGroups_flattening _ ⟨[⟨"devs", "write"⟩]⟩ rfl).1,
   (getGroups_flattening _ ⟨[]⟩ rfl).2 rfl⟩

end BitbucketProvider
